import Mathlib

/-!
Verification development for the slug-generation core of pg_unique_slug.c.

The C source is shallowly embedded: the random source (pg_strong_random) is
passed in as a function from draw index to an optional byte, the clock reading
(clock_gettime) is passed in as a timespec record, uint64 arithmetic is Nat
arithmetic reduced mod 2^64, and ereport(ERROR, ...) is an Except error value
carrying the error code, message and hint from the source.
-/

namespace PgUniqueSlug

/-- Modulus of C uint64 arithmetic. -/
def U64 : Nat := 2 ^ 64

/-- Result of clock_gettime(CLOCK_REALTIME): whole seconds and the nanosecond
remainder since the epoch. -/
structure Timespec where
  tv_sec : Nat
  tv_nsec : Nat
  deriving DecidableEq

/-- The ten letter buckets of the source, one per decimal digit:
`static const char *digit_buckets[10]`. -/
def digit_buckets : List String :=
  ["qWeRtY", "QwErTy", "uIoPa", "UiOpA", "sDfGh", "SdFgH", "jKlZx", "JkLzX", "cVbNm", "CvBnM"]

/-- The separate size table of the source: `static const int bucket_sizes[10]`. -/
def bucket_sizes : List Nat := [6, 6, 5, 5, 5, 5, 5, 5, 5, 5]

/-- Which arm of the switch statement in get_timestamp_value handles a given
precision value. -/
inductive TsBranch
  | secondsCase
  | millisCase
  | microsCase
  | nanosCase
  | defaultCase
  deriving DecidableEq

/-- Branch selection of the switch in get_timestamp_value. -/
def get_timestamp_branch (precision : Int) : TsBranch :=
  if precision = 10 then .secondsCase
  else if precision = 13 then .millisCase
  else if precision = 16 then .microsCase
  else if precision = 19 then .nanosCase
  else .defaultCase

/-- Embedding of get_timestamp_value. The clock reading is an explicit
argument; each arm computes in uint64 arithmetic (mod 2^64). -/
def get_timestamp_value (precision : Int) (ts : Timespec) : Nat :=
  if precision = 10 then ts.tv_sec % U64
  else if precision = 13 then (ts.tv_sec * 1000 + ts.tv_nsec / 1000000) % U64
  else if precision = 16 then (ts.tv_sec * 1000000 + ts.tv_nsec / 1000) % U64
  else if precision = 19 then (ts.tv_sec * 1000000000 + ts.tv_nsec) % U64
  else (ts.tv_sec * 1000000 + ts.tv_nsec / 1000) % U64

/-- Decimal digits of n, most significant first, one step of division per unit
of fuel; fuel n+1 always suffices because n/10 shrinks faster than the fuel. -/
def natToDigitsAux : Nat → Nat → List Nat → List Nat
  | 0, _, acc => acc
  | fuel + 1, n, acc =>
    if n < 10 then n :: acc
    else natToDigitsAux fuel (n / 10) (n % 10 :: acc)

/-- Decimal representation of n, most significant digit first ([0] for 0),
as "%llu" renders it. -/
def decimal_rep (n : Nat) : List Nat := natToDigitsAux (n + 1) n []

/-- Left padding with zero digits to width len: the "%0*llu" minimum width. -/
def zero_pad (len : Nat) (ds : List Nat) : List Nat :=
  List.replicate (len - ds.length) 0 ++ ds

/-- Digits stored in the 20-byte buffer by
`snprintf(digits, sizeof(digits), "%0*llu", len, ts)`: the zero-padded decimal
representation, truncated to the 19 characters the buffer can hold. -/
def snprintf_digits (len : Nat) (ts : Nat) : List Nat :=
  (zero_pad len (decimal_rep ts)).take 19

/-- Digit read by the encoding loop at position p (`digits[i] - '0'`). -/
def digit_at (ts len p : Nat) : Nat :=
  ((snprintf_digits len ts).take len).getD p 0

/-- PostgreSQL error codes that appear in the source. ereport with no explicit
errcode reports ERRCODE_INTERNAL_ERROR. -/
inductive ErrCode
  | invalidParameterValue
  | internalError
  deriving DecidableEq

/-- Payload of an ereport(ERROR, ...) call: code, message, optional hint. -/
structure PgError where
  code : ErrCode
  msg : String
  hint : Option String
  deriving DecidableEq

/-- The error raised by gen_unique_slug for a length outside {10,13,16,19}. -/
def invalid_length_error : PgError :=
  { code := .invalidParameterValue
    msg := "slug_length must be 10, 13, 16, or 19"
    hint := some "10=seconds, 13=milliseconds, 16=microseconds, 19=nanoseconds" }

/-- The error raised by timestamp_to_slug when pg_strong_random fails. -/
def random_failed_error : PgError :=
  { code := .internalError, msg := "pg_strong_random failed", hint := none }

/-- The random source: one pg_strong_random call per draw index; none models a
failed draw, some r a successfully drawn byte. -/
abbrev PgRandom := Nat → Option (Fin 256)

/-- Character selected for digit d and random byte r:
`digit_buckets[digit][rnd % bucket_size]`. -/
def bucketChar (d : Nat) (r : Fin 256) : Char :=
  (digit_buckets.getD d "").data.getD (r.val % bucket_sizes.getD d 0) ' '

/-- The encoding loop of timestamp_to_slug over the digit list, carrying the
source position index i: at i = half a hyphen is emitted before the letter,
and a failed random draw aborts the whole computation. -/
def encode_digits (rng : PgRandom) (half : Nat) : Nat → List Nat → Except PgError (List Char)
  | _, [] => .ok []
  | i, d :: ds =>
    match rng i with
    | none => .error random_failed_error
    | some r =>
      match encode_digits rng half (i + 1) ds with
      | .error e => .error e
      | .ok rest =>
        .ok (if i = half then '-' :: bucketChar d r :: rest else bucketChar d r :: rest)

/-- Embedding of timestamp_to_slug: formats ts into the digits buffer, then
runs the encoding loop over digits[0..len-1] with the hyphen at len/2. -/
def timestamp_to_slug (ts : Nat) (len : Nat) (rng : PgRandom) : Except PgError String :=
  match encode_digits rng (len / 2) 0 ((snprintf_digits len ts).take len) with
  | .error e => .error e
  | .ok cs => .ok (String.mk cs)

instance {ε α : Type} [DecidableEq ε] [DecidableEq α] : DecidableEq (Except ε α) := fun a b =>
  match a, b with
  | .error e, .error f =>
    if h : e = f then isTrue (by rw [h]) else isFalse (by simp [h])
  | .error _, .ok _ => isFalse (by simp)
  | .ok _, .error _ => isFalse (by simp)
  | .ok x, .ok y =>
    if h : x = y then isTrue (by rw [h]) else isFalse (by simp [h])

/-- Observable outcome of one gen_unique_slug call: the returned text or error,
how many times the clock was read, and which switch branches of
get_timestamp_value were exercised, in order. -/
structure GenResult where
  result : Except PgError String
  clockReads : Nat
  tsBranches : List TsBranch
  deriving DecidableEq

/-- Embedding of gen_unique_slug: a null argument defaults to 16, the length is
validated against {10,13,16,19} before the clock is read or any random byte is
drawn, then the timestamp is fetched and encoded. -/
def gen_unique_slug (arg : Option Int) (clock : Timespec) (rng : PgRandom) : GenResult :=
  let len : Int := match arg with | none => 16 | some v => v
  if len ≠ 10 ∧ len ≠ 13 ∧ len ≠ 16 ∧ len ≠ 19 then
    { result := .error invalid_length_error, clockReads := 0, tsBranches := [] }
  else
    { result := timestamp_to_slug (get_timestamp_value len clock) len.toNat rng
      clockReads := 1
      tsBranches := [get_timestamp_branch len] }

/-- Letters produced for a digit list when every draw succeeds, with source
position starting at i (no hyphen). -/
def letters (bytes : Nat → Fin 256) : Nat → List Nat → List Char
  | _, [] => []
  | i, d :: ds => bucketChar d (bytes i) :: letters bytes (i + 1) ds

/-- The encoding loop when every random draw succeeds. -/
def encode_pure (bytes : Nat → Fin 256) (half : Nat) : Nat → List Nat → List Char
  | _, [] => []
  | i, d :: ds =>
    let rest := encode_pure bytes half (i + 1) ds
    if i = half then '-' :: bucketChar d (bytes i) :: rest
    else bucketChar d (bytes i) :: rest

/-- The digit whose bucket contains a character, if any. -/
def char_digit (c : Char) : Option Nat :=
  (List.range 10).findSome? fun d =>
    if (digit_buckets.getD d "").data.contains c then some d else none

/-- Recover the digit string from a slug: drop the separator, map each letter
back to the unique bucket containing it. -/
def slug_decode (s : String) : List Nat :=
  (s.data.filter fun c => c != '-').filterMap char_digit

/-! Basic facts about the digit rendering. -/

theorem natToDigitsAux_zero (n : Nat) (acc : List Nat) :
    natToDigitsAux 0 n acc = acc := rfl

theorem natToDigitsAux_succ (f n : Nat) (acc : List Nat) :
    natToDigitsAux (f + 1) n acc =
      if n < 10 then n :: acc else natToDigitsAux f (n / 10) (n % 10 :: acc) := rfl

theorem natToDigitsAux_mem : ∀ (fuel n : Nat) (acc : List Nat),
    ∀ d ∈ natToDigitsAux fuel n acc, d < 10 ∨ d ∈ acc := by
  intro fuel
  induction fuel with
  | zero => intro n acc d hd; exact Or.inr hd
  | succ f ih =>
    intro n acc d hd
    rw [natToDigitsAux_succ] at hd
    by_cases h : n < 10
    · rw [if_pos h] at hd
      rcases List.mem_cons.mp hd with h1 | h1
      · exact Or.inl (h1 ▸ h)
      · exact Or.inr h1
    · rw [if_neg h] at hd
      rcases ih (n / 10) (n % 10 :: acc) d hd with h1 | h1
      · exact Or.inl h1
      · rcases List.mem_cons.mp h1 with h2 | h2
        · exact Or.inl (h2 ▸ Nat.mod_lt n (by omega))
        · exact Or.inr h2

theorem natToDigitsAux_length : ∀ (fuel n : Nat) (acc : List Nat), 0 < fuel →
    acc.length < (natToDigitsAux fuel n acc).length := by
  intro fuel
  induction fuel with
  | zero => intro n acc h; omega
  | succ f ih =>
    intro n acc _
    rw [natToDigitsAux_succ]
    by_cases h : n < 10
    · rw [if_pos h]; simp
    · rw [if_neg h]
      rcases Nat.eq_zero_or_pos f with hf | hf
      · subst hf; rw [natToDigitsAux_zero]; simp
      · have := ih (n / 10) (n % 10 :: acc) hf
        simp at this
        omega

theorem decimal_rep_lt_ten (n : Nat) : ∀ d ∈ decimal_rep n, d < 10 := by
  intro d hd
  rcases natToDigitsAux_mem (n + 1) n [] d hd with h | h
  · exact h
  · simp at h

theorem decimal_rep_length_pos (n : Nat) : 0 < (decimal_rep n).length := by
  have := natToDigitsAux_length (n + 1) n [] (by omega)
  simpa [decimal_rep] using this

theorem zero_pad_length (len : Nat) (ds : List Nat) :
    (zero_pad len ds).length = max len ds.length := by
  simp [zero_pad]
  omega

theorem zero_pad_lt_ten (len : Nat) (ds : List Nat) (h : ∀ d ∈ ds, d < 10) :
    ∀ d ∈ zero_pad len ds, d < 10 := by
  intro d hd
  rcases List.mem_append.mp hd with h1 | h1
  · have := List.eq_of_mem_replicate h1
    omega
  · exact h d h1

theorem snprintf_digits_lt_ten (len ts : Nat) : ∀ d ∈ snprintf_digits len ts, d < 10 := by
  intro d hd
  exact zero_pad_lt_ten len (decimal_rep ts) (decimal_rep_lt_ten ts) d
    ((List.take_sublist 19 _).subset hd)

theorem taken_digits_lt_ten (len ts : Nat) :
    ∀ d ∈ (snprintf_digits len ts).take len, d < 10 := by
  intro d hd
  exact snprintf_digits_lt_ten len ts d ((List.take_sublist len _).subset hd)

theorem taken_digits_length (len ts : Nat) (h : len ≤ 19) :
    ((snprintf_digits len ts).take len).length = len := by
  simp [snprintf_digits, List.length_take, zero_pad_length]
  omega

/-! Facts about the bucket table and character selection. -/

theorem getD_mem_of_lt {α : Type} (l : List α) (i : Nat) (d : α) (h : i < l.length) :
    l.getD i d ∈ l := by
  rw [List.getD_eq_getElem?_getD, List.getElem?_eq_getElem h]
  exact List.getElem_mem h

theorem bucket_sizes_pos (d : Nat) (hd : d < 10) : 0 < bucket_sizes.getD d 0 := by
  interval_cases d <;> decide

theorem bucket_sizes_eq_length (d : Nat) (hd : d < 10) :
    bucket_sizes.getD d 0 = (digit_buckets.getD d "").data.length := by
  interval_cases d <;> decide

theorem bucketChar_mem (d : Nat) (hd : d < 10) (r : Fin 256) :
    bucketChar d r ∈ (digit_buckets.getD d "").data := by
  apply getD_mem_of_lt
  rw [← bucket_sizes_eq_length d hd]
  exact Nat.mod_lt _ (bucket_sizes_pos d hd)

theorem hyphen_not_in_bucket (d : Nat) (hd : d < 10) : '-' ∉ (digit_buckets.getD d "").data := by
  interval_cases d <;> decide

theorem bucketChar_ne_hyphen (d : Nat) (hd : d < 10) (r : Fin 256) : bucketChar d r ≠ '-' :=
  fun h => hyphen_not_in_bucket d hd (h ▸ bucketChar_mem d hd r)

theorem char_digit_of_mem_range :
    ∀ d ∈ List.range 10, ∀ c ∈ (digit_buckets.getD d "").data, char_digit c = some d := by
  decide

theorem char_digit_bucketChar (d : Nat) (hd : d < 10) (r : Fin 256) :
    char_digit (bucketChar d r) = some d :=
  char_digit_of_mem_range d (List.mem_range.mpr hd) _ (bucketChar_mem d hd r)

/-! Facts about the letter sequence produced when every draw succeeds. -/

theorem letters_length (bytes : Nat → Fin 256) :
    ∀ (ds : List Nat) (i : Nat), (letters bytes i ds).length = ds.length := by
  intro ds
  induction ds with
  | nil => intro i; rfl
  | cons d ds ih => intro i; simp [letters, ih]

theorem letters_getD (bytes : Nat → Fin 256) :
    ∀ (ds : List Nat) (i k : Nat), k < ds.length →
      (letters bytes i ds).getD k ' ' = bucketChar (ds.getD k 0) (bytes (i + k)) := by
  intro ds
  induction ds with
  | nil => intro i k h; simp at h
  | cons d ds ih =>
    intro i k h
    cases k with
    | zero => simp [letters]
    | succ k =>
      have hk : k < ds.length := by simpa using h
      have := ih (i + 1) k hk
      simp only [letters, List.getD_cons_succ]
      rw [this, show i + (k + 1) = i + 1 + k by omega]

theorem letters_not_hyphen (bytes : Nat → Fin 256) :
    ∀ (ds : List Nat) (i : Nat), (∀ d ∈ ds, d < 10) → '-' ∉ letters bytes i ds := by
  intro ds
  induction ds with
  | nil => intro i _ h; simp [letters] at h
  | cons d ds ih =>
    intro i hds h
    rcases List.mem_cons.mp h with h1 | h1
    · exact bucketChar_ne_hyphen d (hds d (List.mem_cons_self d ds)) (bytes i) h1.symm
    · exact ih (i + 1) (fun e he => hds e (List.mem_cons_of_mem d he)) h1

theorem letters_filterMap (bytes : Nat → Fin 256) :
    ∀ (ds : List Nat) (i : Nat), (∀ d ∈ ds, d < 10) →
      (letters bytes i ds).filterMap char_digit = ds := by
  intro ds
  induction ds with
  | nil => intro i _; rfl
  | cons d ds ih =>
    intro i hds
    have hd : d < 10 := hds d (List.mem_cons_self d ds)
    simp only [letters, List.filterMap_cons, char_digit_bucketChar d hd (bytes i)]
    rw [ih (i + 1) (fun e he => hds e (List.mem_cons_of_mem d he))]

/-! Shape of the successfully encoded output: letters with one hyphen spliced
in when the hyphen position falls inside the processed range. -/

theorem encode_pure_eq (bytes : Nat → Fin 256) (half : Nat) :
    ∀ (ds : List Nat) (i : Nat),
      encode_pure bytes half i ds =
        if i ≤ half ∧ half < i + ds.length then
          letters bytes i (ds.take (half - i)) ++ '-' :: letters bytes half (ds.drop (half - i))
        else letters bytes i ds := by
  intro ds
  induction ds with
  | nil =>
    intro i
    have h : ¬(i ≤ half ∧ half < i + ([] : List Nat).length) := by
      simp only [List.length_nil]
      omega
    rw [if_neg h]
    rfl
  | cons d ds ih =>
    intro i
    by_cases hih : i = half
    · subst hih
      have hc : i ≤ i ∧ i < i + (d :: ds).length := by simp
      rw [if_pos hc]
      have hrec : encode_pure bytes i (i + 1) ds = letters bytes (i + 1) ds := by
        rw [ih (i + 1), if_neg (by omega)]
      simp [encode_pure, hrec, letters]
    · by_cases hc : i ≤ half ∧ half < i + (d :: ds).length
      · rw [if_pos hc]
        have hlt : i < half := by omega
        have hc2 : i + 1 ≤ half ∧ half < (i + 1) + ds.length := by
          simp at hc; omega
        have hrec := ih (i + 1)
        rw [if_pos hc2] at hrec
        have htake : (d :: ds).take (half - i) = d :: ds.take (half - (i + 1)) := by
          rw [show half - i = (half - (i + 1)) + 1 by omega]
          rfl
        have hdrop : (d :: ds).drop (half - i) = ds.drop (half - (i + 1)) := by
          rw [show half - i = (half - (i + 1)) + 1 by omega]
          rfl
        simp only [encode_pure, hrec, if_neg hih, htake, hdrop, letters]
        rfl
      · rw [if_neg hc]
        have hc2 : ¬(i + 1 ≤ half ∧ half < (i + 1) + ds.length) := by
          simp at hc ⊢; omega
        have hrec := ih (i + 1)
        rw [if_neg hc2] at hrec
        simp only [encode_pure, hrec, if_neg hih, letters]

/-! Relating the fallible encoding loop to the pure one. -/

theorem encode_digits_fail (rng : PgRandom) (half : Nat) :
    ∀ (ds : List Nat) (i : Nat), (∃ k, k < ds.length ∧ rng (i + k) = none) →
      encode_digits rng half i ds = .error random_failed_error := by
  intro ds
  induction ds with
  | nil => intro i h; rcases h with ⟨k, hk, _⟩; simp at hk
  | cons d ds ih =>
    intro i h
    cases hr : rng i with
    | none => simp [encode_digits, hr]
    | some r =>
      rcases h with ⟨k, hk, hnone⟩
      cases k with
      | zero => rw [show i + 0 = i by omega] at hnone; rw [hnone] at hr; cases hr
      | succ k =>
        have : encode_digits rng half (i + 1) ds = .error random_failed_error := by
          apply ih (i + 1)
          exact ⟨k, by simpa using hk, by rw [show i + 1 + k = i + (k + 1) by omega]; exact hnone⟩
        simp [encode_digits, hr, this]

theorem encode_digits_isSome (rng : PgRandom) (half : Nat) :
    ∀ (ds : List Nat) (i : Nat) (cs : List Char), encode_digits rng half i ds = .ok cs →
      ∀ j, i ≤ j → j < i + ds.length → (rng j).isSome := by
  intro ds
  induction ds with
  | nil => intro i cs _ j h1 h2; simp at h2; omega
  | cons d ds ih =>
    intro i cs h j h1 h2
    cases hr : rng i with
    | none => simp [encode_digits, hr] at h
    | some r =>
      by_cases hji : j = i
      · rw [hji, hr]; rfl
      · simp only [encode_digits, hr] at h
        cases he : encode_digits rng half (i + 1) ds with
        | error e => rw [he] at h; simp at h
        | ok rest =>
          exact ih (i + 1) rest he j (by omega) (by simp at h2; omega)

theorem encode_digits_eq_pure (rng : PgRandom) (bytes : Nat → Fin 256) (half : Nat) :
    ∀ (ds : List Nat) (i : Nat), (∀ j, i ≤ j → j < i + ds.length → rng j = some (bytes j)) →
      encode_digits rng half i ds = .ok (encode_pure bytes half i ds) := by
  intro ds
  induction ds with
  | nil => intro i _; rfl
  | cons d ds ih =>
    intro i hs
    have hr : rng i = some (bytes i) := hs i (Nat.le_refl i) (by simp)
    have hrec : encode_digits rng half (i + 1) ds = .ok (encode_pure bytes half (i + 1) ds) :=
      ih (i + 1) (fun j h1 h2 => hs j (by omega) (by simp; omega))
    simp [encode_digits, hr, hrec, encode_pure]

theorem encode_digits_ok_eq (rng : PgRandom) (half : Nat)
    (ds : List Nat) (i : Nat) (cs : List Char) (h : encode_digits rng half i ds = .ok cs) :
    cs = encode_pure (fun j => (rng j).getD 0) half i ds := by
  have hsome := encode_digits_isSome rng half ds i cs h
  have heq := encode_digits_eq_pure rng (fun j => (rng j).getD 0) half ds i (by
    intro j h1 h2
    have := hsome j h1 h2
    cases hr : rng j with
    | none => rw [hr] at this; cases this
    | some r => simp [hr])
  rw [heq] at h
  exact (Except.ok.inj h).symm

/-! Positional helpers for getD. -/

theorem getD_take_of_lt {α : Type} (l : List α) (n i : Nat) (d : α) (h : i < n) :
    (l.take n).getD i d = l.getD i d := by
  simp [List.getD_eq_getElem?_getD, List.getElem?_take, h]

theorem getD_drop {α : Type} (l : List α) (n i : Nat) (d : α) :
    (l.drop n).getD i d = l.getD (n + i) d := by
  simp [List.getD_eq_getElem?_getD, List.getElem?_drop]

theorem getD_append_left {α : Type} (l l2 : List α) (i : Nat) (d : α) (h : i < l.length) :
    (l ++ l2).getD i d = l.getD i d := by
  simp [List.getD_eq_getElem?_getD, List.getElem?_append_left h]

theorem getD_append_right {α : Type} (l l2 : List α) (i : Nat) (d : α) (h : l.length ≤ i) :
    (l ++ l2).getD i d = l2.getD (i - l.length) d := by
  simp [List.getD_eq_getElem?_getD, List.getElem?_append_right h]

/-! Shape of every successful timestamp_to_slug result: the letters for the
first half of the digits, one hyphen, the letters for the second half. -/

theorem timestamp_to_slug_ok_shape (ts len : Nat) (rng : PgRandom) (s : String)
    (hpos : 0 < len) (hle : len ≤ 19)
    (h : timestamp_to_slug ts len rng = .ok s) :
    ∃ bytes : Nat → Fin 256,
      (∀ j, j < len → rng j = some (bytes j)) ∧
      s.data =
        letters bytes 0 (((snprintf_digits len ts).take len).take (len / 2)) ++
          '-' :: letters bytes (len / 2) (((snprintf_digits len ts).take len).drop (len / 2)) := by
  unfold timestamp_to_slug at h
  cases he : encode_digits rng (len / 2) 0 ((snprintf_digits len ts).take len) with
  | error e => rw [he] at h; cases h
  | ok cs =>
    rw [he] at h
    have hs : s = String.mk cs := (Except.ok.inj h).symm
    have hdlen : ((snprintf_digits len ts).take len).length = len := taken_digits_length len ts hle
    refine ⟨fun j => (rng j).getD 0, ?_, ?_⟩
    · intro j hj
      have := encode_digits_isSome rng (len / 2) _ 0 cs he j (Nat.zero_le j) (by omega)
      cases hr : rng j with
      | none => rw [hr] at this; cases this
      | some r => simp [hr]
    · have hcs := encode_digits_ok_eq rng (len / 2) _ 0 cs he
      rw [hs]
      show cs = _
      rw [hcs, encode_pure_eq]
      have hcond : 0 ≤ len / 2 ∧ len / 2 < 0 + ((snprintf_digits len ts).take len).length := by
        rw [hdlen]
        omega
      rw [if_pos hcond]
      simp

/-! Derived helpers about successful slugs. -/

theorem slug_ok_data_length (ts len : Nat) (rng : PgRandom) (s : String)
    (hpos : 0 < len) (hle : len ≤ 19)
    (h : timestamp_to_slug ts len rng = .ok s) : s.data.length = len + 1 := by
  rcases timestamp_to_slug_ok_shape ts len rng s hpos hle h with ⟨bytes, _, hshape⟩
  have hdlen : ((snprintf_digits len ts).take len).length = len := taken_digits_length len ts hle
  rw [hshape]
  simp [letters_length, List.length_take, hdlen]
  omega

theorem slug_char (ts len : Nat) (rng : PgRandom) (s : String)
    (hpos : 0 < len) (hle : len ≤ 19)
    (h : timestamp_to_slug ts len rng = .ok s) (p : Nat) (hp : p < len) :
    ∃ r : Fin 256, rng p = some r ∧
      s.data.getD (if p < len / 2 then p else p + 1) ' ' = bucketChar (digit_at ts len p) r := by
  rcases timestamp_to_slug_ok_shape ts len rng s hpos hle h with ⟨bytes, hb, hshape⟩
  have hdlen : ((snprintf_digits len ts).take len).length = len := taken_digits_length len ts hle
  refine ⟨bytes p, hb p hp, ?_⟩
  have hhalf : len / 2 < len := by omega
  have hLlen : (letters bytes 0 (((snprintf_digits len ts).take len).take (len / 2))).length
      = len / 2 := by
    rw [letters_length, List.length_take, hdlen]
    omega
  by_cases hcase : p < len / 2
  · rw [if_pos hcase, hshape, getD_append_left _ _ _ _ (by omega)]
    rw [letters_getD _ _ _ _ (by rw [List.length_take, hdlen]; omega)]
    rw [getD_take_of_lt _ _ _ _ hcase]
    rw [show (0 : Nat) + p = p by omega]
    rfl
  · rw [if_neg hcase, hshape, getD_append_right _ _ _ _ (by omega)]
    rw [hLlen, show p + 1 - len / 2 = (p - len / 2) + 1 by omega, List.getD_cons_succ]
    rw [letters_getD _ _ _ _ (by rw [List.length_drop, hdlen]; omega)]
    rw [getD_drop, show len / 2 + (p - len / 2) = p by omega]
    rfl

theorem slug_decode_eq_digits (ts len : Nat) (rng : PgRandom) (s : String)
    (hpos : 0 < len) (hle : len ≤ 19)
    (h : timestamp_to_slug ts len rng = .ok s) :
    slug_decode s = (snprintf_digits len ts).take len := by
  rcases timestamp_to_slug_ok_shape ts len rng s hpos hle h with ⟨bytes, _, hshape⟩
  have hlt : ∀ d ∈ (snprintf_digits len ts).take len, d < 10 := taken_digits_lt_ten len ts
  have hltT : ∀ d ∈ ((snprintf_digits len ts).take len).take (len / 2), d < 10 :=
    fun d hd => hlt d ((List.take_sublist _ _).subset hd)
  have hltD : ∀ d ∈ ((snprintf_digits len ts).take len).drop (len / 2), d < 10 :=
    fun d hd => hlt d ((List.drop_sublist _ _).subset hd)
  have hfL : ∀ c ∈ letters bytes 0 (((snprintf_digits len ts).take len).take (len / 2)),
      (c != '-') = true := by
    intro c hc
    simp only [bne_iff_ne, ne_eq]
    intro hcon
    exact letters_not_hyphen bytes _ 0 hltT (hcon ▸ hc)
  have hfR : ∀ c ∈ letters bytes (len / 2) (((snprintf_digits len ts).take len).drop (len / 2)),
      (c != '-') = true := by
    intro c hc
    simp only [bne_iff_ne, ne_eq]
    intro hcon
    exact letters_not_hyphen bytes _ (len / 2) hltD (hcon ▸ hc)
  unfold slug_decode
  rw [hshape, List.filter_append, List.filter_cons]
  simp only [show (('-' != '-') = false) from rfl, Bool.false_eq_true, if_false]
  rw [List.filter_eq_self.mpr hfL, List.filter_eq_self.mpr hfR, List.filterMap_append]
  rw [letters_filterMap bytes _ 0 hltT, letters_filterMap bytes _ (len / 2) hltD]
  exact List.take_append_drop _ _

/-! Claim theorems. -/

/-- Claim C1: for every valid length L in {10, 13, 16, 19} and every timestamp
value (including values whose decimal representation needs more than L digits),
the string returned by generate_slug has length exactly L + 1. -/
theorem claim_C1_slug_length (len ts : Nat) (rng : PgRandom) (s : String)
    (hlen : len = 10 ∨ len = 13 ∨ len = 16 ∨ len = 19)
    (h : timestamp_to_slug ts len rng = .ok s) :
    s.length = len + 1 := by
  have hpos : 0 < len := by rcases hlen with h1 | h1 | h1 | h1 <;> omega
  have hle : len ≤ 19 := by rcases hlen with h1 | h1 | h1 | h1 <;> omega
  exact slug_ok_data_length ts len rng s hpos hle h

/-- Witness for C1 at length 10 and a far-future 11-digit timestamp. -/
theorem claim_C1_witness :
    timestamp_to_slug 12345678901 10 (fun _ => some 0) = .ok "QuUsS-jJcCq" ∧
    ("QuUsS-jJcCq" : String).length = 10 + 1 :=
  ⟨by decide,
   claim_C1_slug_length 10 12345678901 (fun _ => some 0) "QuUsS-jJcCq" (by decide) (by decide)⟩

/-- Claim C2: every successful output contains the separator exactly once, at
output index L/2, and the separator is never the first or last character. -/
theorem claim_C2_separator (len ts : Nat) (rng : PgRandom) (s : String)
    (hlen : len = 10 ∨ len = 13 ∨ len = 16 ∨ len = 19)
    (h : timestamp_to_slug ts len rng = .ok s) :
    s.data.getD (len / 2) ' ' = '-' ∧
    s.data.count '-' = 1 ∧
    0 < len / 2 ∧
    len / 2 < s.data.length - 1 := by
  have hpos : 0 < len := by rcases hlen with h1 | h1 | h1 | h1 <;> omega
  have hle : len ≤ 19 := by rcases hlen with h1 | h1 | h1 | h1 <;> omega
  have hslen : s.data.length = len + 1 := slug_ok_data_length ts len rng s hpos hle h
  rcases timestamp_to_slug_ok_shape ts len rng s hpos hle h with ⟨bytes, _, hshape⟩
  have hdlen : ((snprintf_digits len ts).take len).length = len := taken_digits_length len ts hle
  have hLlen : (letters bytes 0 (((snprintf_digits len ts).take len).take (len / 2))).length
      = len / 2 := by
    rw [letters_length, List.length_take, hdlen]
    omega
  have hltT : ∀ d ∈ ((snprintf_digits len ts).take len).take (len / 2), d < 10 :=
    fun d hd => taken_digits_lt_ten len ts d ((List.take_sublist _ _).subset hd)
  have hltD : ∀ d ∈ ((snprintf_digits len ts).take len).drop (len / 2), d < 10 :=
    fun d hd => taken_digits_lt_ten len ts d ((List.drop_sublist _ _).subset hd)
  refine ⟨?_, ?_, by omega, by omega⟩
  · rw [hshape, getD_append_right _ _ _ _ (by omega), hLlen, Nat.sub_self]
    rfl
  · rw [hshape, List.count_append, List.count_cons]
    rw [List.count_eq_zero.mpr (letters_not_hyphen bytes _ 0 hltT)]
    rw [List.count_eq_zero.mpr (letters_not_hyphen bytes _ (len / 2) hltD)]
    rfl

/-- Witness for C2 at length 13. -/
theorem claim_C2_witness :
    timestamp_to_slug 1700000000 13 (fun _ => some 0) = .ok "qqqQJq-qqqqqqq" ∧
    (("qqqQJq-qqqqqqq" : String).data.getD (13 / 2) ' ' = '-' ∧
     ("qqqQJq-qqqqqqq" : String).data.count '-' = 1 ∧
     0 < 13 / 2 ∧
     13 / 2 < ("qqqQJq-qqqqqqq" : String).data.length - 1) :=
  ⟨by decide,
   claim_C2_separator 13 1700000000 (fun _ => some 0) "qqqQJq-qqqqqqq" (by decide) (by decide)⟩

/-- Claim C3: the bucket tables are exactly the ten ordered alphabets of the
design table with sizes 6,6,5,5,5,5,5,5,5,5, the size table agrees with the
string lengths, and each non-separator output character is
digit_buckets[d][r mod size d] for the digit d at its source position and the
byte r drawn for that position. -/
theorem claim_C3_bucket_selection (len ts : Nat) (bytes : Nat → Fin 256) (s : String)
    (hlen : len = 10 ∨ len = 13 ∨ len = 16 ∨ len = 19)
    (h : timestamp_to_slug ts len (fun i => some (bytes i)) = .ok s) :
    digit_buckets =
      ["qWeRtY", "QwErTy", "uIoPa", "UiOpA", "sDfGh", "SdFgH", "jKlZx", "JkLzX", "cVbNm", "CvBnM"] ∧
    bucket_sizes = [6, 6, 5, 5, 5, 5, 5, 5, 5, 5] ∧
    (∀ d, d < 10 → bucket_sizes.getD d 0 = (digit_buckets.getD d "").length) ∧
    ∀ p, p < len →
      s.data.getD (if p < len / 2 then p else p + 1) ' ' =
        (digit_buckets.getD (digit_at ts len p) "").data.getD
          ((bytes p).val % bucket_sizes.getD (digit_at ts len p) 0) ' ' := by
  have hpos : 0 < len := by rcases hlen with h1 | h1 | h1 | h1 <;> omega
  have hle : len ≤ 19 := by rcases hlen with h1 | h1 | h1 | h1 <;> omega
  refine ⟨rfl, rfl, fun d hd => bucket_sizes_eq_length d hd, fun p hp => ?_⟩
  rcases slug_char ts len (fun i => some (bytes i)) s hpos hle h p hp with ⟨r, hr, hc⟩
  have hbr : bytes p = r := Option.some.inj hr
  rw [hc, ← hbr]
  rfl

/-- Witness for C3 at length 10 and timestamp 1700000000. -/
theorem claim_C3_witness :
    timestamp_to_slug 1700000000 10 (fun i => some ((fun _ => (0 : Fin 256)) i))
      = .ok "QJqqq-qqqqq" ∧
    ∀ p, p < 10 →
      ("QJqqq-qqqqq" : String).data.getD (if p < 10 / 2 then p else p + 1) ' ' =
        (digit_buckets.getD (digit_at 1700000000 10 p) "").data.getD
          (((fun _ => (0 : Fin 256)) p).val % bucket_sizes.getD (digit_at 1700000000 10 p) 0) ' ' :=
  ⟨by decide,
   (claim_C3_bucket_selection 10 1700000000 (fun _ => 0) "QJqqq-qqqqq"
     (by decide) (by decide)).2.2.2⟩

/-- Claim C4: the timestamp value used for encoding is secs for length 10,
secs*1000 + nanos/1000000 for 13, secs*1000000 + nanos/1000 for 16, and
secs*1000000000 + nanos for 19, in uint64 arithmetic with truncating division;
whenever the products stay below 2^64 (every realistic clock reading) the
values are exact. -/
theorem claim_C4_timestamp_value (t : Timespec) :
    (get_timestamp_value 10 t = t.tv_sec % U64 ∧
     get_timestamp_value 13 t = (t.tv_sec * 1000 + t.tv_nsec / 1000000) % U64 ∧
     get_timestamp_value 16 t = (t.tv_sec * 1000000 + t.tv_nsec / 1000) % U64 ∧
     get_timestamp_value 19 t = (t.tv_sec * 1000000000 + t.tv_nsec) % U64) ∧
    (t.tv_nsec < 1000000000 → t.tv_sec ≤ 18446744072 →
      get_timestamp_value 10 t = t.tv_sec ∧
      get_timestamp_value 13 t = t.tv_sec * 1000 + t.tv_nsec / 1000000 ∧
      get_timestamp_value 16 t = t.tv_sec * 1000000 + t.tv_nsec / 1000 ∧
      get_timestamp_value 19 t = t.tv_sec * 1000000000 + t.tv_nsec) := by
  have hwrap : get_timestamp_value 10 t = t.tv_sec % U64 ∧
      get_timestamp_value 13 t = (t.tv_sec * 1000 + t.tv_nsec / 1000000) % U64 ∧
      get_timestamp_value 16 t = (t.tv_sec * 1000000 + t.tv_nsec / 1000) % U64 ∧
      get_timestamp_value 19 t = (t.tv_sec * 1000000000 + t.tv_nsec) % U64 := by
    refine ⟨?_, ?_, ?_, ?_⟩ <;> simp [get_timestamp_value]
  refine ⟨hwrap, fun hn hs => ?_⟩
  have hU : U64 = 18446744073709551616 := by norm_num [U64]
  have hdiv6 : t.tv_nsec / 1000000 ≤ t.tv_nsec := Nat.div_le_self _ _
  have hdiv3 : t.tv_nsec / 1000 ≤ t.tv_nsec := Nat.div_le_self _ _
  refine ⟨?_, ?_, ?_, ?_⟩
  · rw [hwrap.1, Nat.mod_eq_of_lt (by omega)]
  · rw [hwrap.2.1, Nat.mod_eq_of_lt (by omega)]
  · rw [hwrap.2.2.1, Nat.mod_eq_of_lt (by omega)]
  · rw [hwrap.2.2.2, Nat.mod_eq_of_lt (by omega)]

/-- Witness for C4 at a realistic clock reading. -/
theorem claim_C4_witness :
    123456789 < 1000000000 ∧ 1700000000 ≤ 18446744072 ∧
    get_timestamp_value 19 ⟨1700000000, 123456789⟩ = 1700000000 * 1000000000 + 123456789 :=
  ⟨by norm_num, by norm_num,
   ((claim_C4_timestamp_value ⟨1700000000, 123456789⟩).2 (by norm_num) (by norm_num)).2.2.2⟩

/-! Remaining helpers. -/

theorem digit_at_lt_ten (ts len p : Nat) (hle : len ≤ 19) (hp : p < len) :
    digit_at ts len p < 10 := by
  apply taken_digits_lt_ten len ts
  apply getD_mem_of_lt
  rw [taken_digits_length len ts hle]
  exact hp

theorem letters_filter_ne (bytes : Nat → Fin 256) (ds : List Nat) (i : Nat)
    (hds : ∀ d ∈ ds, d < 10) :
    (letters bytes i ds).filter (fun c => c != '-') = letters bytes i ds := by
  apply List.filter_eq_self.mpr
  intro c hc
  simp only [bne_iff_ne, ne_eq]
  intro hcon
  exact letters_not_hyphen bytes ds i hds (hcon ▸ hc)

theorem decode_encode_pure (ds : List Nat) (hds : ∀ d ∈ ds, d < 10)
    (bytes : Nat → Fin 256) (half : Nat) :
    slug_decode (String.mk (encode_pure bytes half 0 ds)) = ds := by
  have hT : ∀ d ∈ ds.take half, d < 10 := fun d hd => hds d ((List.take_sublist _ _).subset hd)
  have hD : ∀ d ∈ ds.drop half, d < 10 := fun d hd => hds d ((List.drop_sublist _ _).subset hd)
  rw [encode_pure_eq]
  by_cases hc : 0 ≤ half ∧ half < 0 + ds.length
  · rw [if_pos hc]
    show ((letters bytes 0 (ds.take (half - 0)) ++
        '-' :: letters bytes half (ds.drop (half - 0))).filter fun c => c != '-').filterMap
          char_digit = ds
    rw [Nat.sub_zero, List.filter_append, List.filter_cons]
    simp only [show (('-' != '-') = false) from rfl, Bool.false_eq_true, if_false]
    rw [letters_filter_ne bytes _ 0 hT, letters_filter_ne bytes _ half hD]
    rw [List.filterMap_append, letters_filterMap bytes _ 0 hT, letters_filterMap bytes _ half hD]
    exact List.take_append_drop _ _
  · rw [if_neg hc]
    show ((letters bytes 0 ds).filter fun c => c != '-').filterMap char_digit = ds
    rw [letters_filter_ne bytes _ 0 hds, letters_filterMap bytes _ 0 hds]

/-- Claim C5 (amended): for every requested length outside {10, 13, 16, 19},
gen_unique_slug fails with the invalid-parameter error before any clock read or
random draw: the outcome is the same fixed error for every clock value and
every random source, the clock is read zero times, no switch branch runs, and
the payload carries the constraint message and a hint listing the four valid
values with their unit meanings; a null length argument proceeds as length 16.
The error does not carry the offending value itself. -/
theorem claim_C5_invalid_length (v : Int)
    (hv : ¬(v = 10 ∨ v = 13 ∨ v = 16 ∨ v = 19)) :
    (∀ clock rng, gen_unique_slug (some v) clock rng =
      { result := .error invalid_length_error, clockReads := 0, tsBranches := [] }) ∧
    invalid_length_error.code = .invalidParameterValue ∧
    invalid_length_error.msg = "slug_length must be 10, 13, 16, or 19" ∧
    invalid_length_error.hint =
      some "10=seconds, 13=milliseconds, 16=microseconds, 19=nanoseconds" ∧
    (∀ clock rng, gen_unique_slug none clock rng = gen_unique_slug (some 16) clock rng) := by
  have h1 : v ≠ 10 := fun hcon => hv (Or.inl hcon)
  have h2 : v ≠ 13 := fun hcon => hv (Or.inr (Or.inl hcon))
  have h3 : v ≠ 16 := fun hcon => hv (Or.inr (Or.inr (Or.inl hcon)))
  have h4 : v ≠ 19 := fun hcon => hv (Or.inr (Or.inr (Or.inr hcon)))
  refine ⟨fun clock rng => ?_, rfl, rfl, rfl, fun clock rng => rfl⟩
  simp [gen_unique_slug, h1, h2, h3, h4]

/-- Witness for the amended C5 at offending value 20. -/
theorem claim_C5_witness :
    ¬((20 : Int) = 10 ∨ (20 : Int) = 13 ∨ (20 : Int) = 16 ∨ (20 : Int) = 19) ∧
    gen_unique_slug (some 20) ⟨7, 7⟩ (fun _ => some 3) =
      { result := .error invalid_length_error, clockReads := 0, tsBranches := [] } :=
  ⟨by decide, (claim_C5_invalid_length 20 (by decide)).1 ⟨7, 7⟩ (fun _ => some 3)⟩

/-- Counterexample for C5 as stated: the error payload is one fixed constant.
At offending value 5 neither the message nor the hint contains the character 5,
and the result for offending value 5 is identical to the one for 7, so the
error cannot carry the offending value. -/
theorem claim_C5_counterexample :
    gen_unique_slug (some 5) ⟨0, 0⟩ (fun _ => none) =
      { result := .error invalid_length_error, clockReads := 0, tsBranches := [] } ∧
    gen_unique_slug (some 5) ⟨0, 0⟩ (fun _ => none) =
      gen_unique_slug (some 7) ⟨0, 0⟩ (fun _ => none) ∧
    invalid_length_error.msg.data.contains '5' = false ∧
    (invalid_length_error.hint.getD "").data.contains '5' = false := by
  decide

/-- Claim C6: if any of the random draws needed for the requested length fails,
timestamp_to_slug terminates with the random-source error and no slug — partial
or otherwise — is returned. -/
theorem claim_C6_random_failure (len ts : Nat) (rng : PgRandom)
    (hlen : len = 10 ∨ len = 13 ∨ len = 16 ∨ len = 19)
    (hfail : ∃ i, i < len ∧ rng i = none) :
    timestamp_to_slug ts len rng = .error random_failed_error ∧
    ∀ s, timestamp_to_slug ts len rng ≠ .ok s := by
  have hle : len ≤ 19 := by rcases hlen with h1 | h1 | h1 | h1 <;> omega
  have hdlen : ((snprintf_digits len ts).take len).length = len := taken_digits_length len ts hle
  have herr : encode_digits rng (len / 2) 0 ((snprintf_digits len ts).take len)
      = .error random_failed_error := by
    apply encode_digits_fail
    rcases hfail with ⟨i, hi, hnone⟩
    refine ⟨i, by omega, ?_⟩
    rw [Nat.zero_add]
    exact hnone
  have heq : timestamp_to_slug ts len rng = .error random_failed_error := by
    unfold timestamp_to_slug
    rw [herr]
  exact ⟨heq, fun s hcon => by rw [heq] at hcon; cases hcon⟩

/-- Witness for C6: an always-failing random source at length 10. -/
theorem claim_C6_witness :
    ((10 : Nat) = 10 ∨ (10 : Nat) = 13 ∨ (10 : Nat) = 16 ∨ (10 : Nat) = 19) ∧
    (∃ i, i < 10 ∧ (fun _ => (none : Option (Fin 256))) i = none) ∧
    timestamp_to_slug 1700000000 10 (fun _ => none) = .error random_failed_error :=
  ⟨Or.inl rfl, ⟨0, by omega, rfl⟩,
   (claim_C6_random_failure 10 1700000000 (fun _ => none) (Or.inl rfl) ⟨0, by omega, rfl⟩).1⟩

/-- Claim C7 (amended): when the decimal representation of the timestamp value
needs more than len digits, the digit string actually encoded consists of the
HIGHEST-order len digits (the leading prefix of the decimal representation; the
low-order digits are the ones cut off), and the truncation is deterministic:
the slugs of any two successful calls with the same timestamp decode to that
same digit string. -/
theorem claim_C7_truncation (len ts : Nat)
    (hlen : len = 10 ∨ len = 13 ∨ len = 16 ∨ len = 19)
    (hlong : len < (decimal_rep ts).length) :
    (snprintf_digits len ts).take len = (decimal_rep ts).take len ∧
    ∀ rng rng1 s s1, timestamp_to_slug ts len rng = .ok s →
      timestamp_to_slug ts len rng1 = .ok s1 →
      slug_decode s = (decimal_rep ts).take len ∧ slug_decode s1 = slug_decode s := by
  have hpos : 0 < len := by rcases hlen with h1 | h1 | h1 | h1 <;> omega
  have hle : len ≤ 19 := by rcases hlen with h1 | h1 | h1 | h1 <;> omega
  have hpref : (snprintf_digits len ts).take len = (decimal_rep ts).take len := by
    unfold snprintf_digits zero_pad
    rw [Nat.sub_eq_zero_of_le (Nat.le_of_lt hlong)]
    rw [List.replicate_zero, List.nil_append, List.take_take]
    rw [Nat.min_def, if_pos hle]
  refine ⟨hpref, fun rng rng1 s s1 h h1 => ?_⟩
  have hd := slug_decode_eq_digits ts len rng s hpos hle h
  have hd1 := slug_decode_eq_digits ts len rng1 s1 hpos hle h1
  rw [hpref] at hd hd1
  exact ⟨hd, hd1.trans hd.symm⟩

/-- Witness for the amended C7 at the 11-digit timestamp 12345678901. -/
theorem claim_C7_witness :
    10 < (decimal_rep 12345678901).length ∧
    timestamp_to_slug 12345678901 10 (fun _ => some 0) = .ok "QuUsS-jJcCq" ∧
    timestamp_to_slug 12345678901 10 (fun _ => some 1) = .ok "wIiDd-KkVvW" ∧
    slug_decode "QuUsS-jJcCq" = (decimal_rep 12345678901).take 10 ∧
    slug_decode "wIiDd-KkVvW" = slug_decode "QuUsS-jJcCq" :=
  ⟨by decide, by decide, by decide,
   ((claim_C7_truncation 10 12345678901 (by decide) (by decide)).2
     (fun _ => some 0) (fun _ => some 1) "QuUsS-jJcCq" "wIiDd-KkVvW"
     (by decide) (by decide)).1,
   ((claim_C7_truncation 10 12345678901 (by decide) (by decide)).2
     (fun _ => some 0) (fun _ => some 1) "QuUsS-jJcCq" "wIiDd-KkVvW"
     (by decide) (by decide)).2⟩

/-- Counterexample for C7 as stated: at timestamp 12345678901 with length 10
the slug decodes to the ten HIGHEST-order digits 1234567890, which differs from
the zero-padded ten lowest-order digits 2345678901 that the claim announces. -/
theorem claim_C7_counterexample :
    timestamp_to_slug 12345678901 10 (fun _ => some 2) = .ok "EoOfF-lLbBe" ∧
    slug_decode "EoOfF-lLbBe" = [1, 2, 3, 4, 5, 6, 7, 8, 9, 0] ∧
    zero_pad 10 (decimal_rep (12345678901 % 10 ^ 10)) = [2, 3, 4, 5, 6, 7, 8, 9, 0, 1] ∧
    ([1, 2, 3, 4, 5, 6, 7, 8, 9, 0] : List Nat) ≠ [2, 3, 4, 5, 6, 7, 8, 9, 0, 1] := by
  decide

/-- Claim C8: for timestamp 1700000000 at length 10 the zero-padded digit
string is 1700000000 and the output is five encoded characters, the hyphen,
then five encoded characters, with position 0 drawn from bucket 1 = QwErTy,
position 1 from bucket 7 = JkLzX, and every other non-separator position from
bucket 0 = qWeRtY. -/
theorem claim_C8_concrete (bytes : Nat → Fin 256) (s : String)
    (h : timestamp_to_slug 1700000000 10 (fun i => some (bytes i)) = .ok s) :
    (snprintf_digits 10 1700000000).take 10 = [1, 7, 0, 0, 0, 0, 0, 0, 0, 0] ∧
    s.data.length = 11 ∧
    s.data.getD 5 ' ' = '-' ∧
    s.data.getD 0 ' ' ∈ "QwErTy".data ∧
    s.data.getD 1 ' ' ∈ "JkLzX".data ∧
    ∀ j ∈ ([2, 3, 4, 6, 7, 8, 9, 10] : List Nat), s.data.getD j ' ' ∈ "qWeRtY".data := by
  have hpos : 0 < 10 := by omega
  have hle : (10 : Nat) ≤ 19 := by omega
  have key : ∀ p, p < 10 →
      s.data.getD (if p < 5 then p else p + 1) ' ' ∈
        (digit_buckets.getD (digit_at 1700000000 10 p) "").data := by
    intro p hp
    rcases slug_char 1700000000 10 (fun i => some (bytes i)) s hpos hle h p hp with ⟨r, _, hc⟩
    rw [show ((10 : Nat) / 2) = 5 from rfl] at hc
    rw [hc]
    exact bucketChar_mem _ (digit_at_lt_ten 1700000000 10 p hle hp) r
  have g : ∀ p, p < 10 → digit_at 1700000000 10 p = 0 →
      s.data.getD (if p < 5 then p else p + 1) ' ' ∈ "qWeRtY".data := by
    intro p hp hd
    have hk := key p hp
    rw [hd] at hk
    exact hk
  refine ⟨by decide, slug_ok_data_length 1700000000 10 _ s hpos hle h, ?_, ?_, ?_, ?_⟩
  · rcases timestamp_to_slug_ok_shape 1700000000 10 _ s hpos hle h with ⟨bts, _, hshape⟩
    have hLlen :
        (letters bts 0 (((snprintf_digits 10 1700000000).take 10).take (10 / 2))).length = 5 := by
      rw [letters_length, List.length_take, taken_digits_length 10 1700000000 hle]
      decide
    rw [hshape, getD_append_right _ _ _ _ (by omega), hLlen, Nat.sub_self]
    rfl
  · have h0 := key 0 (by omega)
    rw [show digit_at 1700000000 10 0 = 1 from by decide] at h0
    exact h0
  · have h1 := key 1 (by omega)
    rw [show digit_at 1700000000 10 1 = 7 from by decide] at h1
    exact h1
  · intro j hj
    fin_cases hj
    · exact g 2 (by omega) (by decide)
    · exact g 3 (by omega) (by decide)
    · exact g 4 (by omega) (by decide)
    · exact g 5 (by omega) (by decide)
    · exact g 6 (by omega) (by decide)
    · exact g 7 (by omega) (by decide)
    · exact g 8 (by omega) (by decide)
    · exact g 9 (by omega) (by decide)

/-- Witness for C8 with every random byte equal to 3. -/
theorem claim_C8_witness :
    timestamp_to_slug 1700000000 10 (fun i => some ((fun _ => (3 : Fin 256)) i))
      = .ok "rzRRR-RRRRR" ∧
    ("rzRRR-RRRRR" : String).data.getD 0 ' ' ∈ "QwErTy".data ∧
    ("rzRRR-RRRRR" : String).data.getD 1 ' ' ∈ "JkLzX".data :=
  ⟨by decide,
   (claim_C8_concrete (fun _ => 3) "rzRRR-RRRRR" (by decide)).2.2.2.1,
   (claim_C8_concrete (fun _ => 3) "rzRRR-RRRRR" (by decide)).2.2.2.2.1⟩

/-- Claim C9: the 52 letters of the ten buckets are pairwise distinct, so each
slug letter belongs to exactly one bucket; decoding a slug recovers exactly the
digit string that was encoded, for every digit string and every choice of
random bytes, and in particular for every successful timestamp_to_slug call. -/
theorem claim_C9_decode (len ts : Nat) (rng : PgRandom) (s : String)
    (hlen : len = 10 ∨ len = 13 ∨ len = 16 ∨ len = 19)
    (h : timestamp_to_slug ts len rng = .ok s) :
    (digit_buckets.map String.data).flatten.Nodup ∧
    (digit_buckets.map String.data).flatten.length = 52 ∧
    (∀ ds : List Nat, (∀ d ∈ ds, d < 10) → ∀ (bytes : Nat → Fin 256) (half : Nat),
      slug_decode (String.mk (encode_pure bytes half 0 ds)) = ds) ∧
    slug_decode s = (snprintf_digits len ts).take len := by
  have hpos : 0 < len := by rcases hlen with h1 | h1 | h1 | h1 <;> omega
  have hle : len ≤ 19 := by rcases hlen with h1 | h1 | h1 | h1 <;> omega
  exact ⟨by decide, by decide,
    fun ds hds bytes half => decode_encode_pure ds hds bytes half,
    slug_decode_eq_digits ts len rng s hpos hle h⟩

/-- Witness for C9 at length 16. -/
theorem claim_C9_witness :
    timestamp_to_slug 1700000000 16 (fun _ => some 1) = .ok "WWWWWWwk-WWWWWWWW" ∧
    slug_decode "WWWWWWwk-WWWWWWWW" = (snprintf_digits 16 1700000000).take 16 :=
  ⟨by decide,
   (claim_C9_decode 16 1700000000 (fun _ => some 1) "WWWWWWwk-WWWWWWWW"
     (by decide) (by decide)).2.2.2⟩

/-- Claim C10: in every call of gen_unique_slug — any argument, clock reading
and random source — the default branch of the get_timestamp_value switch is
never exercised: after validation the precision is one of the four enumerated
values. -/
theorem claim_C10_default_unreachable (arg : Option Int) (clock : Timespec) (rng : PgRandom) :
    TsBranch.defaultCase ∉ (gen_unique_slug arg clock rng).tsBranches := by
  rcases arg with _ | v
  · intro hmem
    simp [gen_unique_slug, get_timestamp_branch] at hmem
  · by_cases hb : v ≠ 10 ∧ v ≠ 13 ∧ v ≠ 16 ∧ v ≠ 19
    · intro hmem
      rw [show gen_unique_slug (some v) clock rng =
          { result := .error invalid_length_error, clockReads := 0, tsBranches := [] } from by
        simp [gen_unique_slug, hb.1, hb.2.1, hb.2.2.1, hb.2.2.2]] at hmem
      simp at hmem
    · have hv : v = 10 ∨ v = 13 ∨ v = 16 ∨ v = 19 := by tauto
      rcases hv with rfl | rfl | rfl | rfl <;>
        · intro hmem
          simp [gen_unique_slug, get_timestamp_branch] at hmem

end PgUniqueSlug
